import Mathlib

/-!  Shallow embedding of `two1/bitcoin/block.py` and `two1/bitcoin/utils.py`.

Byte strings are modelled as `List Nat` whose entries are below 256; Python
integers are unbounded and become `Nat`, `Int` or `Rat` as the operations
require.  The double-SHA-256 primitive `dhash` and the SHA-256 midstate
extractor are cryptographic externals; they enter every definition as
explicit function parameters (`dh`, `mid`), so each statement below holds
for an arbitrary compression function.  Exceptions raised by the Python
runtime are modelled with `Except PyErr`.
-/

/-- Python exception classes that the embedded code can raise. -/
inductive PyErr : Type where
  | valueError
  | typeError
  | attributeError
  | indexError
  | structError
  | nonTermination
deriving DecidableEq

deriving instance DecidableEq for Except

/-- Value of a little-endian byte list, as `struct.unpack` reads it. -/
def fromLE (l : List Nat) : Nat := l.foldr (fun b acc => b + 256 * acc) 0

/-- Fixed-width little-endian rendering of `n`.  `struct.pack` raises
`struct.error` on out-of-range values instead of wrapping, so theorems
apply this only to in-range values. -/
def leBytes : Nat → Nat → List Nat
  | 0, _ => []
  | w + 1, n => n % 256 :: leBytes w (n / 256)

/-- `pack_u32` from `utils.py`: `struct.pack` with format `<I`. -/
def pack_u32 (i : Nat) : List Nat := leBytes 4 i

/-- `unpack_u32` from `utils.py`: `struct.unpack` with format `<I` applied
to `b[0:4]`; `struct.unpack` raises `struct.error` when fewer than four
bytes remain. -/
def unpack_u32 (b : List Nat) : Except PyErr (Nat × List Nat) :=
  if b.length < 4 then .error .structError
  else .ok (fromLE (b.take 4), b.drop 4)

/-- `pack_compact_int` from `utils.py`: the Bitcoin compact-size encoding. -/
def pack_compact_int (i : Nat) : List Nat :=
  if i < 0xfd then [i]
  else if i ≤ 0xffff then 0xfd :: leBytes 2 i
  else if i ≤ 0xffffffff then 0xfe :: leBytes 4 i
  else 0xff :: leBytes 8 i

/-- `unpack_compact_int` from `utils.py`.  Reading `bytestr[0]` of an empty
stream raises `IndexError`; a short tail raises `struct.error`.  The final
`return None` branch is unreachable for genuine bytes (which are < 256);
the caller would crash unpacking `None`, modelled as `typeError`. -/
def unpack_compact_int (b : List Nat) : Except PyErr (Nat × List Nat) :=
  match b with
  | [] => .error .indexError
  | b0 :: rest =>
    if b0 < 0xfd then .ok (b0, rest)
    else if b0 = 0xfd then
      if rest.length < 2 then .error .structError
      else .ok (fromLE (rest.take 2), rest.drop 2)
    else if b0 = 0xfe then
      if rest.length < 4 then .error .structError
      else .ok (fromLE (rest.take 4), rest.drop 4)
    else if b0 = 0xff then
      if rest.length < 8 then .error .structError
      else .ok (fromLE (rest.take 8), rest.drop 8)
    else .error .typeError

/-- Python left shift `a << n` on integers: a negative shift count raises
`ValueError` (message "negative shift count"). -/
def pyShl (a : Int) (n : Int) : Except PyErr Int :=
  if n < 0 then .error .valueError else .ok (a * (2 : Int) ^ n.toNat)

/-- `decode_compact_target` from `utils.py`:
`shift = bits >> 24; target = (bits & 0xffffff) * (1 << (8 * (shift - 3)))`.
For `shift < 3` the shift count is negative and Python raises `ValueError`. -/
def decode_compact_target (bits : Nat) : Except PyErr Nat := do
  let shift := bits >>> 24
  let p ← pyShl 1 (8 * ((shift : Int) - 3))
  pure ((bits &&& 0xffffff) * p.toNat)

/-- Python 3 `int >> float`: unsupported operand types, raises `TypeError`
unconditionally (the shift count is a `float` regardless of its value). -/
def pyIntShrFloat (_a : Int) (_s : Rat) : Except PyErr Int :=
  .error .typeError

/-- Python 3 `float << int`: likewise a `TypeError`. -/
def pyRatShlInt (_s : Rat) (_n : Nat) : Except PyErr Int :=
  .error .typeError

/-- Number of digits of `'%x' % target` (one digit for zero). -/
def hexLen (target : Nat) : Nat := Nat.log 16 target + 1

/-- `encode_compact_target` from `utils.py`.  In Python 3 the line
`shift = (len(hex_target) + 1) / 2` uses true division and produces a
`float`; the subsequent `target >> (8 * (shift - 3))` is therefore a
`TypeError` on every input (the code predates the `//` migration). -/
def encode_compact_target (target : Nat) : Except PyErr Int := do
  let shift : Rat := ((hexLen target : Rat) + 1) / 2
  let pref ← pyIntShrFloat (target : Int) (8 * (shift - 3))
  let hi ← pyRatShlInt shift 24
  pure (hi + pref)

/-- `compute_reward` from `utils.py`:
`era = height // 210000; return 50 * 100000000 / (era + 1)`.
Python true division returns a float; it is modelled as the exact rational,
with which it coincides whenever the division is exact (e.g. eras 0 and 1),
and which an IEEE double approximates to within one unit elsewhere. -/
def compute_reward (height : Nat) : Rat :=
  (50 * 100000000 : Rat) / ((height / 210000 : Nat) + 1)

/-- The source `MerkleNode` is a namedtuple `(hash, left_child, right_child)`
whose children are `None` exactly at leaves.  `block.py` only ever builds
the two shapes below (both children absent, or both present), so the
embedding uses a leaf/node inductive instead of `Option`-typed children. -/
inductive MerkleNode : Type where
  | leaf : List Nat → MerkleNode
  | node : List Nat → MerkleNode → MerkleNode → MerkleNode
deriving DecidableEq

instance : Inhabited MerkleNode := ⟨.leaf []⟩

/-- The namedtuple field `hash` of a `MerkleNode`. -/
def MerkleNode.hash : MerkleNode → List Nat
  | .leaf h => h
  | .node h _ _ => h

/-- One pairing pass of `Block.compute_merkle_tree`: consecutive nodes are
combined into parents hashing `left.hash + right.hash`.  The caller always
passes an even number of nodes; a stray trailing node is dropped exactly as
`range(0, len, 2)` would index past it (unreachable in the program). -/
def pairUp (dh : List Nat → List Nat) : List MerkleNode → List MerkleNode
  | l :: r :: rest => .node (dh (l.hash ++ r.hash)) l r :: pairUp dh rest
  | _ => []

/-- `l[-1]`, the last element of a list (Python indexing raises on an empty
list; the callers below only index non-empty levels). -/
def lastN {α : Type} [Inhabited α] : List α → α
  | [] => default
  | [a] => a
  | _ :: a :: rest => lastN (a :: rest)

/-- The odd-count fix-up of `Block.compute_merkle_tree`:
`if len(level_nodes) % 2 != 0: level_nodes.append(level_nodes[-1])`. -/
def dupIfOdd (ns : List MerkleNode) : List MerkleNode :=
  if ns.length % 2 ≠ 0 then ns ++ [lastN ns] else ns

/-- The `while True` loop of `Block.compute_merkle_tree`, with explicit
fuel.  Each iteration at least halves a level of ≥ 2 nodes, so fuel equal
to the initial node count always suffices; on an empty list the source
loops forever, and the loop is never entered here (`none`). -/
def merkleLoopF (dh : List Nat → List Nat) : Nat → List MerkleNode → Option MerkleNode
  | _, [] => none
  | _, [n] => some n
  | 0, _ :: _ :: _ => none
  | f + 1, l :: r :: rest => merkleLoopF dh f (pairUp dh (dupIfOdd (l :: r :: rest)))

/-- `Block.compute_merkle_tree`, as a function of the leaf nodes. -/
def merkleLoop (dh : List Nat → List Nat) (ns : List MerkleNode) : Option MerkleNode :=
  merkleLoopF dh ns.length ns

/-- The merkle tree `Block.compute_merkle_tree` builds from a transaction
list: leaves are `MerkleNode(t.hash, None, None)` in list order. -/
def compute_merkle_tree_nodes (dh : List Nat → List Nat) (hashes : List (List Nat)) :
    Option MerkleNode :=
  merkleLoop dh (hashes.map .leaf)

/-- One level of the merkle algorithm as §4.3 of the spec words it, on bare
hashes: "each pair produces a parent node whose hash is
`double_hash(left.hash || right.hash)`". -/
def specStep (dh : List Nat → List Nat) : List (List Nat) → List (List Nat)
  | a :: b :: rest => dh (a ++ b) :: specStep dh rest
  | _ => []

/-- The spec's odd-level rule: "if the node count is odd, duplicate the
last node ... so pairing is exact". -/
def specFix (hs : List (List Nat)) : List (List Nat) :=
  if hs.length % 2 ≠ 0 then hs ++ [lastN hs] else hs

/-- The spec's bottom-up loop on bare hashes, with the same fuel device. -/
def merkleRootSpecF (dh : List Nat → List Nat) : Nat → List (List Nat) → Option (List Nat)
  | _, [] => none
  | _, [h] => some h
  | 0, _ :: _ :: _ => none
  | f + 1, a :: b :: rest => merkleRootSpecF dh f (specStep dh (specFix (a :: b :: rest)))

/-- Root hash of the spec-worded merkle algorithm (§4.3). -/
def merkleRootSpec (dh : List Nat → List Nat) (hs : List (List Nat)) : Option (List Nat) :=
  merkleRootSpecF dh hs.length hs

/-- Modelled from the spec: the external `Transaction` component is
consumed only through `hash` (32 bytes, internal order), `serialize`
(`bytes(t)`), its input count and an input-kind predicate distinguishing
`CoinbaseInput` from spending inputs (spec §1, §6). -/
inductive TxnInput : Type where
  | coinbaseInput
  | spendingInput
deriving DecidableEq

/-- Modelled from the spec: a transaction as seen through its interface. -/
structure Transaction : Type where
  inputs : List TxnInput
  hash : List Nat
  serialized : List Nat
deriving DecidableEq

/-- `Transaction.num_inputs` is `len(t.inputs)`. -/
def Transaction.num_inputs (t : Transaction) : Nat := t.inputs.length

/-- Modelled from the spec: `Transaction.from_bytes` consumes a prefix of
the stream and returns the parsed transaction plus the remainder (spec
§4.5); the encoding itself is external, so it enters as a parameter. -/
structure TxnCodec : Type where
  fromBytes : List Nat → Except PyErr (Transaction × List Nat)

/-- `BlockHeader` field record; `hash` byte strings are kept as read. -/
structure BlockHeader : Type where
  version : Nat
  prev_block_hash : List Nat
  merkle_root_hash : List Nat
  time : Nat
  bits : Nat
  nonce : Nat
deriving DecidableEq

/-- `BlockHeader.__bytes__`: the 80-byte serialization
`version ‖ prev ‖ merkle root ‖ time ‖ bits ‖ nonce`. -/
def BlockHeader.serialize (h : BlockHeader) : List Nat :=
  pack_u32 h.version ++ h.prev_block_hash ++ h.merkle_root_hash ++
    pack_u32 h.time ++ pack_u32 h.bits ++ pack_u32 h.nonce

/-- `BlockHeader.from_bytes`: four `unpack_u32` reads around two silent
32-byte slices (`b[0:32]` never raises, short slices just come up short). -/
def BlockHeader.from_bytes (b : List Nat) : Except PyErr (BlockHeader × List Nat) := do
  let (version, b1) ← unpack_u32 b
  let prev := b1.take 32
  let b2 := b1.drop 32
  let root := b2.take 32
  let b3 := b2.drop 32
  let (time, b4) ← unpack_u32 b3
  let (bits, b5) ← unpack_u32 b4
  let (nonce, b6) ← unpack_u32 b5
  pure (⟨version, prev, root, time, bits, nonce⟩, b6)

/-- `int.from_bytes(l, 'big')`. -/
def int_from_bytes_big (l : List Nat) : Nat := l.foldl (fun a b => 256 * a + b) 0

/-- `BlockBase.compute_hash`: writes the nonce into the header and returns
the double hash of the new serialization (the header mutation is returned
alongside). -/
def compute_hash (dh : List Nat → List Nat) (hdr : BlockHeader) (nonce : Nat) :
    BlockHeader × List Nat :=
  let hdr' := { hdr with nonce := nonce }
  (hdr', dh hdr'.serialize)

/-- `BlockBase.check_valid_nonce`: reverses the computed hash, reads it as
a big-endian integer and compares it strictly against `self.target` (the
value `decode_compact_target(bits)` stored at construction). -/
def check_valid_nonce (dh : List Nat → List Nat) (hdr : BlockHeader) (target : Nat)
    (nonce : Nat) : BlockHeader × Bool :=
  let r := compute_hash dh hdr nonce
  (r.1, decide (int_from_bytes_big r.2.reverse < target))

/-- The `Block` instance state.  `__init__` stores the transaction list in
attribute `txns` and the decoded target in `target`; `from_blockheader`
builds the object with `cls.__new__` and stores the list in a *different*
attribute, `transactions`, setting neither `txns`, `height` nor `target`.
Attributes a path never assigned are `none` (reading one raises
`AttributeError`). -/
structure Block : Type where
  height : Option Nat
  block_header : BlockHeader
  target : Option Nat
  txns : Option (List Transaction)
  transactions : Option (List Transaction)
  merkle_tree : Option MerkleNode
deriving DecidableEq

/-- `Block.compute_merkle_tree`: reads `self.txns` (an `AttributeError`
when only `transactions` was ever assigned) and rebuilds the whole tree.
On an empty transaction list the source's `while True` loop never
terminates, a distinguished outcome here. -/
def Block.compute_merkle_tree (dh : List Nat → List Nat) (blk : Block) :
    Except PyErr Block :=
  match blk.txns with
  | none => .error .attributeError
  | some ts =>
    match compute_merkle_tree_nodes dh (ts.map Transaction.hash) with
    | some root => .ok { blk with merkle_tree := some root }
    | none => .error .nonTermination

/-- `Block.invalidate`: full rebuild, then
`self.block_header.merkle_root_hash = self.merkle_tree.hash`. -/
def Block.invalidate (dh : List Nat → List Nat) (blk : Block) : Except PyErr Block := do
  let blk' ← Block.compute_merkle_tree dh blk
  match blk'.merkle_tree with
  | some root =>
    .ok { blk' with block_header := { blk'.block_header with merkle_root_hash := root.hash } }
  | none => .error .attributeError

/-- `Block.invalidate_coinbase`, the incremental left-edge update.  At the
leaf it evaluates `self.coinbase_tranaction.hash`, but the attribute is
misspelled (the property is `coinbase_transaction`), so Python raises
`AttributeError` before mutating anything; an inner node first recurses
into its left child.  Were the name spelled correctly, the write
`merkle_node.merkle_hash = ...` would itself raise `AttributeError`:
`MerkleNode` is a namedtuple (immutable, and its field is `hash`), making
every continuation below the recursion unreachable as well. -/
def invalidate_coinbase : MerkleNode → Except PyErr Unit
  | .leaf _ => .error .attributeError
  | .node _ l _ => invalidate_coinbase l >>= fun _ => .error .attributeError

/-- `Block.__init__`: runs `BlockBase.__init__` (header with placeholder
merkle root and nonce 0, `target = decode_compact_target(bits)`), then sets
the real nonce and `txns` and calls `invalidate()`. -/
def Block.init (dh : List Nat → List Nat) (height version : Nat) (prev : List Nat)
    (time bits nonce : Nat) (ts : List Transaction) : Except PyErr Block := do
  let tgt ← decode_compact_target bits
  let hdr : BlockHeader :=
    ⟨version, prev, List.replicate 32 0, time, bits, nonce⟩
  Block.invalidate dh
    { height := some height, block_header := hdr, target := some tgt,
      txns := some ts, transactions := none, merkle_tree := none }

/-- `Block.from_blockheader`: `cls.__new__` then assignment of
`block_header` and `transactions` (not `txns`), then `invalidate()`. -/
def Block.from_blockheader (dh : List Nat → List Nat) (bh : BlockHeader)
    (ts : List Transaction) : Except PyErr Block :=
  Block.invalidate dh
    { height := none, block_header := bh, target := none, txns := none,
      transactions := some ts, merkle_tree := none }

/-- The transaction-parsing loop of `Block.from_bytes`:
`for i in range(num_txns): t, b = Transaction.from_bytes(b)`. -/
def parse_transactions (codec : TxnCodec) : Nat → List Nat →
    Except PyErr (List Transaction × List Nat)
  | 0, b => .ok ([], b)
  | n + 1, b => do
    let (t, b1) ← codec.fromBytes b
    let (ts, b2) ← parse_transactions codec n b1
    .ok (t :: ts, b2)

/-- `Block.from_bytes`: header, compact-int transaction count, that many
transactions, then `Block.from_blockheader`. -/
def Block.from_bytes (dh : List Nat → List Nat) (codec : TxnCodec) (b : List Nat) :
    Except PyErr (Block × List Nat) := do
  let (bh, b1) ← BlockHeader.from_bytes b
  let (n, b2) ← unpack_compact_int b1
  let (ts, b3) ← parse_transactions codec n b2
  let blk ← Block.from_blockheader dh bh ts
  pure (blk, b3)

/-- `Block.__bytes__`: header bytes, compact-int count, concatenated
transaction serializations. -/
def Block.to_bytes (blk : Block) : Except PyErr (List Nat) :=
  match blk.txns with
  | none => .error .attributeError
  | some ts =>
    .ok (blk.block_header.serialize ++ pack_compact_int ts.length ++
      (ts.map Transaction.serialized).flatten)

/-- The `Block.coinbase_transaction` setter.  Validation first
(`ValueError` unless exactly one input, `TypeError` unless that input is a
`CoinbaseInput`), then `self.txns[0] = cb_txn`, then
`invalidate_coinbase()` — which always raises `AttributeError` (see
`invalidate_coinbase`), leaving the header root stale.  The result is the
object state when the call returns or raises, paired with the exception. -/
def Block.coinbase_transaction_set (blk : Block) (cb : Transaction) :
    Block × Option PyErr :=
  if cb.num_inputs ≠ 1 then (blk, some .valueError)
  else
    match cb.inputs with
    | [] => (blk, some .indexError)
    | i :: _ =>
      if i ≠ TxnInput.coinbaseInput then (blk, some .typeError)
      else
        match blk.txns with
        | none => (blk, some .attributeError)
        | some [] => (blk, some .indexError)
        | some (_ :: rest) =>
          let blk' := { blk with txns := some (cb :: rest) }
          match blk'.merkle_tree with
          | none => (blk', some .attributeError)
          | some root =>
            match invalidate_coinbase root with
            | .error e => (blk', some e)
            | .ok _ => (blk', none)

/-- The `CompactBlock` instance state.  `_midstate` is assigned only by
`_compute_midstate`; `none` models the attribute never having been set. -/
structure CompactBlock : Type where
  height : Nat
  block_header : BlockHeader
  target : Nat
  merkle_edge : List (List Nat)
  cb_txn : Option Transaction
  midstate : Option (List Nat)
deriving DecidableEq

/-- `CompactBlock._complete_merkle_edge`: starting from the coinbase hash,
fold `dhash(cur_hash + e)` through the merkle edge in order and store the
result as the header's merkle root.  With `_cb_txn` still `None` the
method returns silently (the source leaves a `TODO: raise an error?`). -/
def CompactBlock.complete_merkle_edge (dh : List Nat → List Nat)
    (blk : CompactBlock) : CompactBlock :=
  match blk.cb_txn with
  | none => blk
  | some c =>
    let root := blk.merkle_edge.foldl (fun cur e => dh (cur ++ e)) c.hash
    { blk with block_header := { blk.block_header with merkle_root_hash := root } }

/-- `CompactBlock._compute_midstate`: the SHA-256 state after compressing
the first 64 of the 80 header bytes, via the external `sha256` module
(entering here as the parameter `mid`). -/
def CompactBlock.compute_midstate (mid : List Nat → List Nat)
    (blk : CompactBlock) : CompactBlock :=
  { blk with midstate := some (mid (blk.block_header.serialize.take 64)) }

/-- The `CompactBlock.coinbase_transaction` setter: stores the transaction
unconditionally, completes the merkle edge, recomputes the midstate. -/
def CompactBlock.coinbase_transaction_set (dh mid : List Nat → List Nat)
    (blk : CompactBlock) (cb : Transaction) : CompactBlock :=
  CompactBlock.compute_midstate mid
    (CompactBlock.complete_merkle_edge dh { blk with cb_txn := some cb })

/-- `CompactBlock.__init__`: `BlockBase.__init__` decodes the target and
installs a header whose merkle root is the `bytes(32)` placeholder and
whose nonce is 0; the merkle edge is stored, and the coinbase setter runs
only when a coinbase transaction was supplied. -/
def CompactBlock.init (dh mid : List Nat → List Nat) (height version : Nat)
    (prev : List Nat) (time bits : Nat) (edge : List (List Nat))
    (cb : Option Transaction) : Except PyErr CompactBlock := do
  let tgt ← decode_compact_target bits
  let base : CompactBlock :=
    { height := height,
      block_header := ⟨version, prev, List.replicate 32 0, time, bits, 0⟩,
      target := tgt, merkle_edge := edge, cb_txn := none, midstate := none }
  match cb with
  | some c => pure (CompactBlock.coinbase_transaction_set dh mid base c)
  | none => pure base

/-- A concrete executable stand-in for `dhash` used in closed evaluations:
every claim proved here is generic in the hash, so any function serves. -/
def sumDh (l : List Nat) : List Nat :=
  [l.length % 256, l.foldl (· + ·) 0 % 256]

/-- `bytes(32)`: thirty-two zero bytes. -/
def zeros32 : List Nat := List.replicate 32 0

/-- Concrete transactions for closed evaluations. -/
def txA : Transaction := ⟨[.coinbaseInput], [1], [11]⟩

def txB : Transaction := ⟨[.spendingInput], [2], [12]⟩

def txC : Transaction := ⟨[.spendingInput], [3], [13]⟩

def txNew : Transaction := ⟨[.coinbaseInput], [9], [19]⟩

def txTwoInputs : Transaction := ⟨[.coinbaseInput, .spendingInput], [4], [14]⟩

/-- Modelled from the spec: a minimal concrete transaction format for
closed evaluations — one byte `x` parses to a coinbase-input transaction
whose hash and serialization are `[x]` (the real encoding is external). -/
def testCodec : TxnCodec :=
  ⟨fun b =>
    match b with
    | [] => .error .indexError
    | x :: rest => .ok (⟨[.coinbaseInput], [x], [x]⟩, rest)⟩

/-- A concrete header for witnesses: `bits = 0x03000001` decodes to 1. -/
def hdr0 : BlockHeader := ⟨1, zeros32, zeros32, 0, 0x03000001, 0⟩

/-- A constant 32-byte hash function for witnesses. -/
def dh0 : List Nat → List Nat := fun _ => List.replicate 32 0

/-- A concrete `__init__`-built `Block` for the C8 witness. -/
def blk0 : Block :=
  { height := some 0, block_header := hdr0, target := some 1,
    txns := some [txA, txB], transactions := none,
    merkle_tree := some (.node [2, 3] (.leaf [1]) (.leaf [2])) }

/-- The concrete `CompactBlock` produced by `CompactBlock.__init__` with no
coinbase transaction, for claim C9. -/
def cmp0 : CompactBlock :=
  { height := 0, block_header := ⟨1, zeros32, List.replicate 32 0, 0, 0x03000001, 0⟩,
    target := 1, merkle_edge := [], cb_txn := none, midstate := none }

/-- For an exponent byte below 3, the decoder's shift count is negative
and Python raises `ValueError`. -/
lemma decode_compact_target_err (bits : Nat) (h : bits >>> 24 < 3) :
    decode_compact_target bits = .error PyErr.valueError := by
  have hneg : (8 : Int) * (((bits >>> 24 : Nat) : Int) - 3) < 0 := by omega
  simp [decode_compact_target, pyShl, hneg]

/-- For an exponent byte of at least 3, the decoder returns
`mantissa * 256 ^ (exponent - 3)`. -/
lemma decode_compact_target_ok (bits : Nat) (h : 3 ≤ bits >>> 24) :
    decode_compact_target bits =
      .ok ((bits &&& 0xffffff) * 256 ^ (bits >>> 24 - 3)) := by
  have hpos : ¬ (8 : Int) * (((bits >>> 24 : Nat) : Int) - 3) < 0 := by omega
  have htn : ((8 : Int) * (((bits >>> 24 : Nat) : Int) - 3)).toNat =
      8 * (bits >>> 24 - 3) := by omega
  simp [decode_compact_target, pyShl, hpos, htn]
  refine Or.inl ?_
  rw [show ((2 : Int) ^ (8 * (bits >>> 24 - 3))) =
      ((2 ^ (8 * (bits >>> 24 - 3)) : Nat) : Int) from by push_cast; ring]
  rw [Int.toNat_natCast, Nat.pow_mul]

/-- Claim C3 (code bug).  The claim's three listed heights check out, but
the general law fails: `compute_reward` divides by `era + 1`, not by
`2 ^ era`, so from era 2 on (height 420000) the code returns
5000000000 / 3 where the halving schedule the claim (and the function's own
documentation, the controlled-supply reference) requires 5000000000 / 4. -/
theorem claim_C3_reward_formula_bug :
    compute_reward 0 = 5000000000 ∧
    compute_reward 209999 = 5000000000 ∧
    compute_reward 210000 = 2500000000 ∧
    compute_reward 420000 = 5000000000 / 3 ∧
    (5000000000 / 3 : Rat) ≠ 5000000000 / 2 ^ 2 := by
  refine ⟨?_, ?_, ?_, ?_, ?_⟩ <;> norm_num [compute_reward]

/-- Claim C4 (code bug).  `encode_compact_target` computes its shift with
Python 3 true division, producing a float, and then right-shifts by it:
every call raises `TypeError`, so the decode-encode-decode round trip can
never be evaluated; shown at the claim's representative bits `0x1d00ffff`
and at `0x1d800000`, whose mantissa has its top bit set. -/
theorem claim_C4_encode_always_raises :
    (decode_compact_target 0x1d00ffff).bind encode_compact_target =
      .error PyErr.typeError ∧
    (decode_compact_target 0x1d800000).bind encode_compact_target =
      .error PyErr.typeError ∧
    decode_compact_target 0x1d00ffff = .ok (0xffff * 2 ^ 208) := by
  set_option maxRecDepth 100000 in refine ⟨rfl, rfl, rfl⟩

/-- Claim C7.  For a 32-bit compact value whose exponent byte is below 3,
`decode_compact_target` signals a failure (Python raises `ValueError` from
the negative shift count — the condition the spec's taxonomy labels
`DecodeError`) and returns no value; for an exponent of at least 3 it
returns `mantissa * 256 ^ (exponent - 3)`. -/
theorem claim_C7_decode_target (bits : Nat) (hb : bits < 2 ^ 32) :
    (bits >>> 24 < 3 → decode_compact_target bits = .error PyErr.valueError) ∧
    (3 ≤ bits >>> 24 →
      decode_compact_target bits =
        .ok ((bits &&& 0xffffff) * 256 ^ (bits >>> 24 - 3))) :=
  ⟨decode_compact_target_err bits, decode_compact_target_ok bits⟩

/-- Witness for C7 at the concrete input `0x02000005` (exponent 2). -/
theorem claim_C7_witness :
    ((0x02000005 : Nat) >>> 24 < 3 →
      decode_compact_target 0x02000005 = .error PyErr.valueError) ∧
    (3 ≤ (0x02000005 : Nat) >>> 24 →
      decode_compact_target 0x02000005 =
        .ok ((0x02000005 &&& 0xffffff) * 256 ^ ((0x02000005 : Nat) >>> 24 - 3))) :=
  claim_C7_decode_target 0x02000005 (by norm_num)

lemma lastN_map_hash : ∀ ns : List MerkleNode, ns ≠ [] →
    lastN (ns.map MerkleNode.hash) = (lastN ns).hash
  | [], h => absurd rfl h
  | [_], _ => rfl
  | _ :: b :: rest, _ => lastN_map_hash (b :: rest) (by simp)

lemma pairUp_map_hash (dh : List Nat → List Nat) : ∀ ns : List MerkleNode,
    (pairUp dh ns).map MerkleNode.hash = specStep dh (ns.map MerkleNode.hash)
  | [] => rfl
  | [_] => rfl
  | l :: r :: rest => by
    simp only [pairUp, specStep, List.map_cons, MerkleNode.hash,
      pairUp_map_hash dh rest]

lemma dupIfOdd_map_hash (ns : List MerkleNode) :
    (dupIfOdd ns).map MerkleNode.hash = specFix (ns.map MerkleNode.hash) := by
  unfold dupIfOdd specFix
  rcases ns with _ | ⟨a, tail⟩
  · rfl
  · rw [List.length_map]
    by_cases h : (a :: tail).length % 2 ≠ 0
    · rw [if_pos h, if_pos h, List.map_append]
      simp only [List.map_cons, List.map_nil]
      rw [← lastN_map_hash (a :: tail) (by simp)]
      simp only [List.map_cons]
    · rw [if_neg h, if_neg h]

lemma merkleLoopF_map_hash (dh : List Nat → List Nat) : ∀ (f : Nat) (ns : List MerkleNode),
    (merkleLoopF dh f ns).map MerkleNode.hash = merkleRootSpecF dh f (ns.map MerkleNode.hash)
  | f, [] => by simp [merkleLoopF, merkleRootSpecF]
  | f, [n] => by simp [merkleLoopF, merkleRootSpecF]
  | 0, a :: b :: rest => by simp [merkleLoopF, merkleRootSpecF]
  | f + 1, l :: r :: rest => by
    have ih := merkleLoopF_map_hash dh f (pairUp dh (dupIfOdd (l :: r :: rest)))
    rw [pairUp_map_hash, dupIfOdd_map_hash] at ih
    simpa only [merkleLoopF, merkleRootSpecF, List.map_cons] using ih

/-- Claim C6.  `compute_merkle_tree` implements the spec's bottom-up
algorithm: its root hash coincides with the spec-worded recursion
`merkleRootSpec` (odd levels duplicate their last node, pairs hash
`left ‖ right`) on every transaction list; a single transaction's root is
its own hash, untouched; three transactions yield
`dhash(dhash(h0‖h1) ‖ dhash(h2‖h2))`. -/
theorem claim_C6_merkle_tree_algorithm (dh : List Nat → List Nat)
    (t t0 t1 t2 : Transaction) (ts : List Transaction) :
    (compute_merkle_tree_nodes dh [t.hash]).map MerkleNode.hash = some t.hash ∧
    (compute_merkle_tree_nodes dh [t0.hash, t1.hash, t2.hash]).map MerkleNode.hash =
      some (dh (dh (t0.hash ++ t1.hash) ++ dh (t2.hash ++ t2.hash))) ∧
    (compute_merkle_tree_nodes dh (ts.map Transaction.hash)).map MerkleNode.hash =
      merkleRootSpec dh (ts.map Transaction.hash) := by
  refine ⟨?_, ?_, ?_⟩
  · simp [compute_merkle_tree_nodes, merkleLoop, merkleLoopF, MerkleNode.hash]
  · simp [compute_merkle_tree_nodes, merkleLoop, merkleLoopF, dupIfOdd,
      pairUp, lastN, MerkleNode.hash]
  · unfold compute_merkle_tree_nodes merkleLoop merkleRootSpec
    rw [merkleLoopF_map_hash]
    congr 1 <;> simp [List.map_map, Function.comp_def, MerkleNode.hash]

lemma foldl_be_lt : ∀ (l : List Nat), (∀ b ∈ l, b < 256) →
    ∀ acc : Nat, List.foldl (fun a b => 256 * a + b) acc l < (acc + 1) * 256 ^ l.length
  | [], _, acc => by simp
  | b :: t, h, acc => by
    have hb : b < 256 := h b (by simp)
    have ih := foldl_be_lt t (fun x hx => h x (by simp [hx])) (256 * acc + b)
    calc List.foldl (fun a b => 256 * a + b) (256 * acc + b) t
        < (256 * acc + b + 1) * 256 ^ t.length := ih
      _ ≤ ((acc + 1) * 256) * 256 ^ t.length := by
          have : 256 * acc + b + 1 ≤ (acc + 1) * 256 := by omega
          exact Nat.mul_le_mul_right _ this
      _ = (acc + 1) * 256 ^ (b :: t).length := by
          rw [List.length_cons, pow_succ]
          ring

/-- A big-endian read of a list of bytes is below `256 ^ length`. -/
lemma int_from_bytes_big_lt (l : List Nat) (h : ∀ b ∈ l, b < 256) :
    int_from_bytes_big l < 256 ^ l.length := by
  have := foldl_be_lt l h 0
  simpa [int_from_bytes_big] using this

/-- Claim C5.  `check_valid_nonce` returns true exactly when the double
hash of the header carrying the supplied nonce, byte-reversed and read
big-endian, is strictly below the target decoded from the header's bits
(the value `BlockBase.__init__` stores in `self.target`, shared by `Block`
and `CompactBlock`); a target of zero therefore rejects every nonce, and
the maximum decodable target (`bits = 0xffffffff`) accepts every nonce. -/
theorem claim_C5_check_valid_nonce (dh : List Nat → List Nat)
    (hdh : ∀ s, (dh s).length = 32 ∧ ∀ b ∈ dh s, b < 256)
    (hdr : BlockHeader) (target nonce : Nat)
    (htgt : decode_compact_target hdr.bits = .ok target) (hn : nonce < 2 ^ 32) :
    (check_valid_nonce dh hdr target nonce).2 =
      decide (int_from_bytes_big
        ((dh (BlockHeader.serialize { hdr with nonce := nonce })).reverse) < target) ∧
    (target = 0 → (check_valid_nonce dh hdr target nonce).2 = false) ∧
    (hdr.bits = 0xffffffff → (check_valid_nonce dh hdr target nonce).2 = true) := by
  refine ⟨rfl, ?_, ?_⟩
  · intro h0
    subst h0
    simp [check_valid_nonce, compute_hash]
  · intro hmax
    rw [hmax] at htgt
    rw [decode_compact_target_ok 0xffffffff (by decide)] at htgt
    have h1 : (0xffffffff : Nat) &&& 0xffffff = 0xffffff := by decide
    have h2 : (0xffffffff : Nat) >>> 24 - 3 = 252 := by decide
    rw [h1, h2] at htgt
    have htv : target = 0xffffff * 256 ^ 252 := (Except.ok.inj htgt).symm
    have hlen := (hdh (BlockHeader.serialize { hdr with nonce := nonce })).1
    have hmem := (hdh (BlockHeader.serialize { hdr with nonce := nonce })).2
    have hlt : int_from_bytes_big
        ((dh (BlockHeader.serialize { hdr with nonce := nonce })).reverse) < 256 ^ 32 := by
      have := int_from_bytes_big_lt
        ((dh (BlockHeader.serialize { hdr with nonce := nonce })).reverse)
        (fun b hb => hmem b (List.mem_reverse.mp hb))
      rwa [List.length_reverse, hlen] at this
    have hbig : (256 : Nat) ^ 32 ≤ 0xffffff * 256 ^ 252 := by
      calc (256 : Nat) ^ 32 ≤ 256 ^ 252 :=
            Nat.pow_le_pow_right (by norm_num) (by norm_num)
        _ ≤ 0xffffff * 256 ^ 252 := Nat.le_mul_of_pos_left _ (by norm_num)
    have hfin : int_from_bytes_big
        ((dh (BlockHeader.serialize { hdr with nonce := nonce })).reverse) < target := by
      rw [htv]
      exact lt_of_lt_of_le hlt hbig
    simp [check_valid_nonce, compute_hash, hfin]

/-- Witness for C5: a constant hash function, a concrete header with
`bits = 0x03000001` (target 1) and nonce 0. -/
theorem claim_C5_witness :
    (check_valid_nonce dh0 hdr0 1 0).2 =
      decide (int_from_bytes_big
        ((dh0 (BlockHeader.serialize { hdr0 with nonce := 0 })).reverse) < 1) ∧
    ((1 : Nat) = 0 → (check_valid_nonce dh0 hdr0 1 0).2 = false) ∧
    (hdr0.bits = 0xffffffff → (check_valid_nonce dh0 hdr0 1 0).2 = true) :=
  claim_C5_check_valid_nonce dh0
    (fun s => ⟨by simp [dh0], fun b hb => by
      simp only [dh0, List.mem_replicate] at hb
      omega⟩)
    hdr0 1 0 rfl (by norm_num)

/-- Claim C8.  Assigning a transaction whose input count is not one, or
whose first input is not a `CoinbaseInput`, through the
`Block.coinbase_transaction` setter raises (`ValueError` respectively
`TypeError` — the condition the spec's taxonomy labels `InvalidCoinbase`)
before any field is written: the returned object state, and with it
`transactions[0]`, the merkle tree and the header's merkle root, is exactly
the state before the call. -/
theorem claim_C8_invalid_coinbase_atomic (blk : Block) (cb : Transaction)
    (h : cb.num_inputs ≠ 1 ∨ cb.inputs.head? ≠ some TxnInput.coinbaseInput) :
    (Block.coinbase_transaction_set blk cb).1 = blk ∧
    ((Block.coinbase_transaction_set blk cb).2 = some PyErr.valueError ∨
      (Block.coinbase_transaction_set blk cb).2 = some PyErr.typeError) := by
  by_cases h1 : cb.num_inputs ≠ 1
  · simp [Block.coinbase_transaction_set, h1]
  · push_neg at h1
    rcases h with hcase | hcase
    · exact absurd h1 hcase
    · rcases hi : cb.inputs with _ | ⟨i, rest⟩
      · exfalso
        rw [Transaction.num_inputs, hi] at h1
        simp at h1
      · have hne : i ≠ TxnInput.coinbaseInput := by
          rw [hi] at hcase
          simpa using hcase
        simp [Block.coinbase_transaction_set, h1, hi, hne]

/-- Witness for C8: a concrete block and a two-input transaction. -/
theorem claim_C8_witness :
    (Block.coinbase_transaction_set blk0 txTwoInputs).1 = blk0 ∧
    ((Block.coinbase_transaction_set blk0 txTwoInputs).2 = some PyErr.valueError ∨
      (Block.coinbase_transaction_set blk0 txTwoInputs).2 = some PyErr.typeError) :=
  claim_C8_invalid_coinbase_atomic blk0 txTwoInputs (Or.inl (by decide))

/-- Claim C1 (code bug).  The incremental path never completes:
`invalidate_coinbase` reads the misspelled attribute `coinbase_tranaction`
(and would write `merkle_hash` on an immutable namedtuple whose field is
`hash`), so every assignment of a valid new coinbase raises
`AttributeError` after `txns[0]` is replaced, leaving the header's merkle
root at its stale value `[4, 13]` — not the full-rebuild root `[4, 21]`
for the updated transaction set, as the claimed equivalence requires. -/
theorem claim_C1_incremental_update_crashes :
    ((Block.init sumDh 0 1 zeros32 0 0x03000001 0 [txA, txB, txC]).map (fun b =>
      ((Block.coinbase_transaction_set b txNew).2,
        (Block.coinbase_transaction_set b txNew).1.block_header.merkle_root_hash,
        (Block.invalidate sumDh (Block.coinbase_transaction_set b txNew).1).map
          (fun b2 => b2.block_header.merkle_root_hash))) =
      .ok (some PyErr.attributeError, [4, 13], .ok [4, 21])) ∧
    ([4, 13] : List Nat) ≠ [4, 21] := by
  refine ⟨by decide, by decide⟩

/-- Claim C2 (code bug).  `Block.from_blockheader` stores the parsed
transaction list in attribute `transactions`, while the `invalidate` →
`compute_merkle_tree` call it makes reads `self.txns`: every
`Block.from_bytes` parse — shown generally and on a concrete valid block
(80-byte header, count 1, one transaction) — raises `AttributeError`
instead of returning a block, so the serialize-parse round trip never gets
off the ground. -/
theorem claim_C2_from_bytes_crashes :
    (∀ (dh : List Nat → List Nat) (bh : BlockHeader) (ts : List Transaction),
      Block.from_blockheader dh bh ts = .error PyErr.attributeError) ∧
    Block.from_bytes sumDh testCodec (List.replicate 80 0 ++ [1, 7]) =
      .error PyErr.attributeError := by
  refine ⟨fun dh bh ts => rfl, by decide⟩

/-- Claim C9 counterexample.  A `CompactBlock` constructed without a
coinbase transaction (concrete instance `cmp0`) leaves `_cb_txn = None`,
`_midstate` unset and the placeholder all-zero merkle root in the header —
and a proof-of-work check then signals nothing at all: `check_valid_nonce`
returns an ordinary boolean computed from the placeholder header, and
`compute_hash` returns an ordinary hash, contradicting the claimed
`UninitializedBlock` usage error (the source's setter path merely carries
a `TODO: raise an error?`). -/
theorem claim_C9_counterexample :
    CompactBlock.init sumDh sumDh 0 1 zeros32 0 0x03000001 [] none = .ok cmp0 ∧
    cmp0.cb_txn = none ∧
    cmp0.midstate = none ∧
    cmp0.block_header.merkle_root_hash = List.replicate 32 0 ∧
    (check_valid_nonce sumDh cmp0.block_header cmp0.target 5).2 = false ∧
    (compute_hash sumDh cmp0.block_header 5).2 =
      sumDh (BlockHeader.serialize { cmp0.block_header with nonce := 5 }) := by
  refine ⟨by decide, rfl, rfl, rfl, by decide, rfl⟩

/-- Claim C9 (amended).  Constructing a `CompactBlock` without a coinbase
transaction succeeds, storing `_cb_txn = None`, no midstate and the
placeholder zero merkle root; a subsequent `check_valid_nonce` raises no
error and simply compares the hash of that placeholder header against the
target. -/
theorem claim_C9_uninitialized_no_error (dh mid : List Nat → List Nat)
    (height version : Nat) (prev : List Nat) (time bits : Nat)
    (edge : List (List Nat)) (target nonce : Nat)
    (htgt : decode_compact_target bits = .ok target) :
    CompactBlock.init dh mid height version prev time bits edge none =
      .ok { height := height,
            block_header := ⟨version, prev, List.replicate 32 0, time, bits, 0⟩,
            target := target, merkle_edge := edge,
            cb_txn := none, midstate := none } ∧
    (check_valid_nonce dh ⟨version, prev, List.replicate 32 0, time, bits, 0⟩
        target nonce).2 =
      decide (int_from_bytes_big
        ((dh (BlockHeader.serialize
          ⟨version, prev, List.replicate 32 0, time, bits, nonce⟩)).reverse)
        < target) := by
  constructor
  · simp [CompactBlock.init, htgt]
  · rfl

/-- Witness for the amended C9 at concrete inputs. -/
theorem claim_C9_uninitialized_no_error_witness :
    CompactBlock.init dh0 dh0 0 1 zeros32 0 0x03000001 [] none =
      .ok { height := 0,
            block_header := ⟨1, zeros32, List.replicate 32 0, 0, 0x03000001, 0⟩,
            target := 1, merkle_edge := [],
            cb_txn := none, midstate := none } ∧
    (check_valid_nonce dh0 ⟨1, zeros32, List.replicate 32 0, 0, 0x03000001, 0⟩
        1 5).2 =
      decide (int_from_bytes_big
        ((dh0 (BlockHeader.serialize
          ⟨1, zeros32, List.replicate 32 0, 0, 0x03000001, 5⟩)).reverse) < 1) :=
  claim_C9_uninitialized_no_error dh0 dh0 0 1 zeros32 0 0x03000001 [] 1 5 rfl

/-- Claim C10.  The `CompactBlock.coinbase_transaction` setter accepts any
transaction value whatsoever — no input-count or input-kind check, unlike
`Block` — and in one operation stores it, sets the header's merkle root to
the fold of `dhash(running ‖ edge[i])` over the merkle edge seeded with the
transaction's hash, and immediately recomputes the midstate over the first
64 bytes of the updated header serialization. -/
theorem claim_C10_compact_setter_unconditional (dh mid : List Nat → List Nat)
    (blk : CompactBlock) (cb : Transaction) :
    CompactBlock.coinbase_transaction_set dh mid blk cb =
      (let root := blk.merkle_edge.foldl (fun cur e => dh (cur ++ e)) cb.hash
       let hdr : BlockHeader := { blk.block_header with merkle_root_hash := root }
       { blk with cb_txn := some cb, block_header := hdr,
                  midstate := some (mid (hdr.serialize.take 64)) }) :=
  rfl
